import Mathlib

/-!
Shallow embedding of the NubuStream streaming chat server
(`streaming_chat_server.py`): session/room registry, resilient broadcast
engine, moderation pipeline and availability metrics, together with proofs
of the specified properties.

Python dictionaries are modelled as association lists with first-match
lookup, in-place replacement on assignment, and filtering on deletion;
Python sets (the per-room membership sets) as duplicate-free lists with
`setAdd` / `setDiscard`.  Machine state that the claims never observe
(the logger, the asyncio event loop, Redis which is absent in the
reference environment) is omitted; everything observable — the four
registry maps, the metrics counters, every send attempted on a websocket,
every message handed to the durability sink — is made explicit.
-/

/-- Python `dict` lookup `d.get(k)` / `d[k]`: first entry with the key. -/
def dictGet {α : Type} : List (String × α) → String → Option α
  | [], _ => none
  | p :: d, k => if p.1 = k then some p.2 else dictGet d k

/-- Python `dict` assignment `d[k] = v`: replace in place, else append. -/
def dictSet {α : Type} : List (String × α) → String → α → List (String × α)
  | [], k, v => [(k, v)]
  | p :: d, k, v => if p.1 = k then (k, v) :: d else p :: dictSet d k v

/-- Python `del d[k]` (guarded by `k in d` at every call site, so the
absent-key case is a no-op rather than a KeyError). -/
def dictDel {α : Type} (d : List (String × α)) (k : String) : List (String × α) :=
  d.filter (fun p => decide (p.1 ≠ k))

/-- In-place mutation of the value stored under `k` (`d[k].field += 1`,
`d[k].add(x)`, ...).  Every call site has the key present. -/
def dictModify {α : Type} (d : List (String × α)) (k : String) (f : α → α) :
    List (String × α) :=
  d.map (fun p => if p.1 = k then (p.1, f p.2) else p)

/-- Python `set.add`: no-op when the element is already present. -/
def setAdd (s : List String) (x : String) : List String :=
  if x ∈ s then s else s ++ [x]

/-- Python `set.discard`: removes the element when present. -/
def setDiscard (s : List String) (x : String) : List String :=
  s.filter (fun y => decide (y ≠ x))

/-- `p` is an initial segment of `l` (character lists). -/
def charListStarts : List Char → List Char → Bool
  | [], _ => true
  | _ :: _, [] => false
  | a :: p, b :: l => a == b && charListStarts p l

/-- Some suffix of `l` starts with `p` (character lists). -/
def charListHas : List Char → List Char → Bool
  | p, [] => charListStarts p []
  | p, b :: l => charListStarts p (b :: l) || charListHas p l

/-- Python `w in s` on strings: substring containment. -/
def strContains (s w : String) : Bool :=
  charListHas w.data s.data

/-- Python `s.lower()` (the source only feeds it ASCII content, where
per-character lowering coincides with Python's semantics). -/
def lowerStr (s : String) : String :=
  String.mk (s.data.map Char.toLower)

/-- `class UserRole(Enum)`. -/
inductive UserRole
  | viewer
  | moderator
  | streamer
deriving DecidableEq

/-- `@dataclass class User`. -/
structure User where
  user_id : String
  username : String
  role : UserRole
  is_authenticated : Bool := true
deriving DecidableEq

/-- `@dataclass class ChatMessage`; the timestamp is an opaque tick. -/
structure ChatMessage where
  message_id : String
  user_id : String
  username : String
  content : String
  timestamp : Nat
  room_id : String
  is_moderated : Bool := false
deriving DecidableEq

/-- `@dataclass class ChatRoom`.  The count is an integer as in Python;
the code keeps it non-negative with `max(0, ...)`. -/
structure ChatRoom where
  room_id : String
  name : String
  active_users : Int := 0
  is_active : Bool := true
deriving DecidableEq

/-- `class AvailabilityMetrics` (the unobserved `start_time` is omitted). -/
structure AvailabilityMetrics where
  message_count : Nat
  failed_messages : Nat
  connection_count : Nat
  disconnection_count : Nat
deriving DecidableEq

/-- `AvailabilityMetrics.get_uptime_percentage`, over exact rationals
(the Python floats are exact at every value the claims evaluate). -/
def AvailabilityMetrics.get_uptime_percentage (m : AvailabilityMetrics) : Rat :=
  let total_attempts := m.connection_count + m.disconnection_count
  if total_attempts = 0 then 100
  else ((m.connection_count : Rat) / (total_attempts : Rat)) * 100

/-- `AvailabilityMetrics.get_message_success_rate`. -/
def AvailabilityMetrics.get_message_success_rate (m : AvailabilityMetrics) : Rat :=
  let total_messages := m.message_count + m.failed_messages
  if total_messages = 0 then 100
  else ((m.message_count : Rat) / (total_messages : Rat)) * 100

/-- `MessageModerationService.blocked_words`. -/
def blocked_words : List String := ["spam", "toxic", "hate"]

/-- `MessageModerationService.moderate_message`: moderators and streamers
always pass; a viewer's message is rejected when its lower-cased content
contains a blocked word. -/
def moderate_message (message : ChatMessage) (user : User) : Bool :=
  if user.role = UserRole.moderator ∨ user.role = UserRole.streamer then true
  else
    let content_lower := lowerStr message.content
    if blocked_words.any (fun word => strContains content_lower word) then false
    else true

/-- Wire messages sent to clients (`json.dumps(...)` payloads). -/
inductive WireMsg
  | user_joined (user : User) (active_users : Int)
  | chat_message (message : ChatMessage)
  | connection_confirmed (user_id : String) (room_id : String)
deriving DecidableEq

/-- One `websocket.send` attempt: recipient user id, payload, and whether
the send succeeded (a failed send is the raised-and-caught exception). -/
structure SendEvent where
  recipient : String
  msg : WireMsg
  ok : Bool
deriving DecidableEq

/-- The mutable state of `class WebSocketManager`: the four registry maps
and the metrics.  Connection handles (websockets) are opaque naturals;
whether a send on a handle fails is a parameter of each operation. -/
structure WebSocketManager where
  connections : List (String × Nat)
  user_rooms : List (String × String)
  room_users : List (String × List String)
  active_rooms : List (String × ChatRoom)
  metrics : AvailabilityMetrics
deriving DecidableEq

/-- The freshly constructed manager (`WebSocketManager.__init__`). -/
def initWSM : WebSocketManager :=
  { connections := [], user_rooms := [], room_users := [], active_rooms := [],
    metrics := { message_count := 0, failed_messages := 0,
                 connection_count := 0, disconnection_count := 0 } }

/-- The room-side cleanup of `unregister_connection` (lines 199-203):
`room_id = self.user_rooms.get(user_id)`, then — Python truthiness, so an
empty-string room id skips this — remove the user from the room's
membership set and floor-decrement the room's count with `max(0, ...)`.
Returns the updated `room_users` and `active_rooms`. -/
def roomCleanup (st : WebSocketManager) (user_id : String) :
    List (String × List String) × List (String × ChatRoom) :=
  match dictGet st.user_rooms user_id with
  | none => (st.room_users, st.active_rooms)
  | some room_id =>
    if room_id ≠ "" ∧ (dictGet st.room_users room_id).isSome then
      let rooms' := dictModify st.room_users room_id (fun ms => setDiscard ms user_id)
      let act' :=
        if (dictGet st.active_rooms room_id).isSome then
          dictModify st.active_rooms room_id
            (fun r => { r with active_users := max 0 (r.active_users - 1) })
        else st.active_rooms
      (rooms', act')
    else (st.room_users, st.active_rooms)

/-- `WebSocketManager.unregister_connection` (lines 195-212): a no-op
unless `user_id in self.connections`; otherwise the room-side cleanup
runs and the connection handle and reverse mapping are deleted.  The
metrics are not touched. -/
def unregister_connection (st : WebSocketManager) (user_id : String) : WebSocketManager :=
  if (dictGet st.connections user_id).isSome then
    let rc := roomCleanup st user_id
    { st with room_users := rc.1, active_rooms := rc.2,
              connections := dictDel st.connections user_id,
              user_rooms := dictDel st.user_rooms user_id }
  else st

/-- The per-member loop of `broadcast_to_room` (lines 222-234): skip the
excluded user, skip members with no connection handle, attempt the send
for the rest, recording each failure in `failed_connections` and counting
successes.  Returns (events, successful_sends, failed_connections). -/
def broadcastPass (sendFails : Nat → Bool) (conns : List (String × Nat))
    (message : WireMsg) (exclude_user : Option String) :
    List String → List SendEvent × Nat × List String
  | [] => ([], 0, [])
  | u :: rest =>
    if some u = exclude_user then broadcastPass sendFails conns message exclude_user rest
    else
      match dictGet conns u with
      | none => broadcastPass sendFails conns message exclude_user rest
      | some h =>
        let r := broadcastPass sendFails conns message exclude_user rest
        if sendFails h then
          (⟨u, message, false⟩ :: r.1, r.2.1, u :: r.2.2)
        else
          (⟨u, message, true⟩ :: r.1, r.2.1 + 1, r.2.2)

/-- Result of `broadcast_to_room`: the state after the deferred cleanup,
the send attempts in order, and the two tallies the code keeps. -/
structure BroadcastResult where
  st : WebSocketManager
  events : List SendEvent
  successful_sends : Nat
  failed_connections : List String
deriving DecidableEq

/-- `WebSocketManager.broadcast_to_room` (lines 214-240): no-op on an
unknown room; one delivery pass over the membership; then every failed
recipient is unregistered, after the pass. -/
def broadcast_to_room (sendFails : Nat → Bool) (st : WebSocketManager)
    (room_id : String) (message : WireMsg) (exclude_user : Option String) :
    BroadcastResult :=
  match dictGet st.room_users room_id with
  | none => ⟨st, [], 0, []⟩
  | some members =>
    let p := broadcastPass sendFails st.connections message exclude_user members
    ⟨p.2.2.foldl unregister_connection st, p.1, p.2.1, p.2.2⟩

/-- Lines 171-180 of `register_connection`: store the handle and the
reverse mapping, lazily create the room, add the user to its membership
set, increment its count and the connection counter.  The increment of
`self.active_rooms[room_id].active_users` presumes the entry exists,
which holds in every state reachable from `initWSM`; on an absent entry
the model no-ops where Python would raise a KeyError into the `except`. -/
def registerPre (st : WebSocketManager) (websocket : Nat) (user : User)
    (room_id : String) : WebSocketManager :=
  let st1 := { st with connections := dictSet st.connections user.user_id websocket,
                       user_rooms := dictSet st.user_rooms user.user_id room_id }
  let st2 :=
    if (dictGet st1.room_users room_id).isSome then st1
    else { st1 with
      room_users := dictSet st1.room_users room_id [],
      active_rooms := dictSet st1.active_rooms room_id
        { room_id := room_id, name := "Room " ++ room_id } }
  let st3 := { st2 with
    room_users := dictModify st2.room_users room_id (fun ms => setAdd ms user.user_id) }
  let st4 := { st3 with
    active_rooms := dictModify st3.active_rooms room_id
      (fun r => { r with active_users := r.active_users + 1 }) }
  { st4 with metrics := { st4.metrics with
    connection_count := st4.metrics.connection_count + 1 } }

/-- `self.active_rooms[room_id].active_users`, the member count carried
by the `user_joined` payload (the key is present in every reachable
state; on an absent key the model reads 0 where Python would raise). -/
def roomCount (st : WebSocketManager) (room_id : String) : Int :=
  match dictGet st.active_rooms room_id with
  | some r => r.active_users
  | none => 0

/-- `WebSocketManager.register_connection` (lines 168-193): the
registry/metrics updates of `registerPre`, then the `user_joined`
broadcast to the room, excluding the joining user and carrying the
freshly incremented member count. -/
def register_connection (sendFails : Nat → Bool) (st : WebSocketManager)
    (websocket : Nat) (user : User) (room_id : String) :
    WebSocketManager × List SendEvent :=
  let st5 := registerPre st websocket user room_id
  let res := broadcast_to_room sendFails st5 room_id
    (WireMsg.user_joined user (roomCount st5 room_id)) (some user.user_id)
  (res.st, res.events)

/-- Result of `handle_chat_message`: the new state, the send attempts,
the messages handed to the durability sink, and the returned boolean. -/
structure ChatResult where
  st : WebSocketManager
  events : List SendEvent
  stores : List ChatMessage
  result : Bool
deriving DecidableEq

/-- `WebSocketManager.handle_chat_message` (lines 242-277): build the
message with the sender's current room (defaulting to `""` via
`dict.get`), gate on moderation, hand the approved message to the
durability sink (best-effort, its failure only logs), broadcast it with
no excluded user, and bump the delivered-message counter. -/
def handle_chat_message (sendFails : Nat → Bool) (st : WebSocketManager)
    (user : User) (content : String) (message_id : String) (timestamp : Nat) :
    ChatResult :=
  let message : ChatMessage :=
    { message_id := message_id, user_id := user.user_id,
      username := user.username, content := content, timestamp := timestamp,
      room_id := (dictGet st.user_rooms user.user_id).getD "" }
  if moderate_message message user then
    let b := broadcast_to_room sendFails st message.room_id
      (WireMsg.chat_message message) none
    { st := { b.st with metrics := { b.st.metrics with
        message_count := b.st.metrics.message_count + 1 } },
      events := b.events, stores := [message], result := true }
  else ⟨st, [], [], false⟩

/-- The status snapshot record returned by `get_system_status`. -/
structure SystemStatusRec where
  uptime_percentage : Rat
  message_success_rate : Rat
  active_connections : Nat
  active_rooms : Nat
  total_messages : Nat
  failed_messages : Nat
  redis_available : Bool
deriving DecidableEq

/-- `WebSocketManager.get_system_status` (lines 279-289); Redis is absent
in the reference environment, so `redis_available` is `false`. -/
def get_system_status (st : WebSocketManager) : SystemStatusRec :=
  ⟨st.metrics.get_uptime_percentage, st.metrics.get_message_success_rate,
   st.connections.length, st.active_rooms.length,
   st.metrics.message_count, st.metrics.failed_messages, false⟩

/-- The successful-authentication phase of `handle_client` (lines
296-316): `register_connection` runs (broadcasting `user_joined` to the
others), and only then is the `connection_confirmed` reply sent on the
new websocket. -/
def handle_client_auth (sendFails : Nat → Bool) (st : WebSocketManager)
    (websocket : Nat) (user : User) (room_id : String) :
    WebSocketManager × List SendEvent :=
  let r := register_connection sendFails st websocket user room_id
  (r.1, r.2 ++ [⟨user.user_id, WireMsg.connection_confirmed user.user_id room_id,
                 !sendFails websocket⟩])

/-- Outcome of a fan-out pass that iterates the live membership set. -/
inductive FanoutOutcome
  | completed (delivered : List String)
  | iterationError (delivered : List String)
deriving DecidableEq

/-- The `for user_id in self.room_users[room_id]` loop of
`broadcast_to_room` iterates the room's live set object — no copy is
taken.  Each `await ...send(...)` is a suspension point at which another
task on the event loop may run `unregister_connection` and remove a
member from that same set.  CPython's set iterator records the set's
size when the loop starts and raises `RuntimeError: Set changed size
during iteration` from any later `next()` once the size has changed;
that `next()` happens before each subsequent element and once more at
loop exit.  `pending` is the walk over the original elements,
`live` the set as concurrent removals mutate it, `removals` the member
concurrently deregistered during each send (if any), `size0` the size
recorded at iterator creation. -/
def liveSetFanout (size0 : Nat) :
    List String → List String → List (Option String) → List String → FanoutOutcome
  | live, [], _, delivered =>
    if live.length = size0 then FanoutOutcome.completed delivered
    else FanoutOutcome.iterationError delivered
  | live, u :: rest, removals, delivered =>
    if live.length = size0 then
      let live' :=
        match removals.headD none with
        | none => live
        | some x => setDiscard live x
      liveSetFanout size0 live' rest removals.tail (delivered ++ [u])
    else FanoutOutcome.iterationError delivered

/-- Snapshot semantics (what §4.2 of the spec mandates): the copy taken
at call time is iterated to the end whatever happens to the live set. -/
def snapshotFanout (members : List String) : FanoutOutcome :=
  FanoutOutcome.completed members

/-- A send environment in which every send succeeds. -/
def noFail : Nat → Bool := fun _ => false

/-- Scenario user A (viewer), as in end-to-end scenario 1. -/
def userA : User := { user_id := "uA", username := "A", role := UserRole.viewer }

/-- Scenario user B (viewer). -/
def userB : User := { user_id := "uB", username := "B", role := UserRole.viewer }

/-- Scenario user C (viewer). -/
def userC : User := { user_id := "uC", username := "C", role := UserRole.viewer }

/-- End-to-end scenario 1 then 2: A and B join room `R1` successfully,
then A disconnects. -/
def scenarioSt : WebSocketManager :=
  let st1 := (register_connection noFail initWSM 1 userA "R1").1
  let st2 := (register_connection noFail st1 2 userB "R1").1
  unregister_connection st2 "uA"

/-- A joined `R1`; then B's connection is authenticated by
`handle_client`: registration (with its `user_joined` broadcast) runs
first, the `connection_confirmed` reply is sent afterwards. -/
def c3Trace : List SendEvent :=
  let st1 := (register_connection noFail initWSM 1 userA "R1").1
  (handle_client_auth noFail st1 2 userB "R1").2

/-- Recognizer for `user_joined` events. -/
def isUserJoined (e : SendEvent) : Bool :=
  match e.msg with
  | WireMsg.user_joined _ _ => true
  | _ => false

/-- Recognizer for `connection_confirmed` events. -/
def isConfirmed (e : SendEvent) : Bool :=
  match e.msg with
  | WireMsg.connection_confirmed _ _ => true
  | _ => false

/-- One registry operation, as in §4.1 of the spec: a registration (with
its send environment and fresh handle) or a deregistration. -/
inductive RegOp
  | reg (sendFails : Nat → Bool) (websocket : Nat) (user : User) (room_id : String)
  | unreg (user_id : String)

/-- Apply one registry operation to the manager state. -/
def applyOp (st : WebSocketManager) : RegOp → WebSocketManager
  | RegOp.reg f ws u rid => (register_connection f st ws u rid).1
  | RegOp.unreg uid => unregister_connection st uid

/-- Run a sequence of registry operations from a state. -/
def runOps (st : WebSocketManager) (ops : List RegOp) : WebSocketManager :=
  ops.foldl applyOp st

/-- The id is live nowhere in the state: no connection handle, no reverse
mapping, no residual room membership.  `handle_client` generates ids with
`uuid.uuid4()`, so the id of every registration is fresh in this sense. -/
def FreshFor (st : WebSocketManager) (uid : String) : Prop :=
  dictGet st.connections uid = none ∧
  dictGet st.user_rooms uid = none ∧
  ∀ r ms, dictGet st.room_users r = some ms → uid ∉ ms

/-- States reachable from the fresh manager by completed `register` /
`deregister` operations, each registration using a fresh user id. -/
inductive Reaches : WebSocketManager → Prop
  | init : Reaches initWSM
  | reg (st : WebSocketManager) (sendFails : Nat → Bool) (ws : Nat) (user : User)
      (rid : String) : Reaches st → FreshFor st user.user_id →
      Reaches (register_connection sendFails st ws user rid).1
  | unreg (st : WebSocketManager) (uid : String) :
      Reaches st → Reaches (unregister_connection st uid)

/-- The registry invariant maintained by register/deregister (spec
invariants I1/I2): membership sets are duplicate-free; every reverse
mapping points to a room whose membership set exists and contains the
user; and every room with a membership set has a directory entry whose
live-member count equals the set's size. -/
def RegistryInv (st : WebSocketManager) : Prop :=
  (∀ r ms, dictGet st.room_users r = some ms → ms.Nodup) ∧
  (∀ u r, dictGet st.user_rooms u = some r →
    ∃ ms, dictGet st.room_users r = some ms ∧ u ∈ ms) ∧
  (∀ r ms, dictGet st.room_users r = some ms →
    ∃ cr, dictGet st.active_rooms r = some cr ∧
      cr.active_users = (ms.length : Int))

/-- The spam message of end-to-end scenario 1, sent by viewer B. -/
def spamMsg : ChatMessage :=
  { message_id := "m1", user_id := "uB", username := "B",
    content := "this is spam", timestamp := 0, room_id := "R1" }

/-- Room `R1` as it stands right after one registration. -/
def room1 : ChatRoom :=
  { room_id := "R1", name := "Room R1", active_users := 1, is_active := true }

/-- A state with a room member that has no connection entry: A registers
into the room with the empty id and then disconnects — the Python
truthiness check `if room_id and ...` skips the set removal for the
empty-string room, leaving `uA` in the membership set with its
connection handle and reverse mapping gone. -/
def orphanSt : WebSocketManager :=
  unregister_connection ((register_connection noFail initWSM 1 userA "").1) "uA"

/-- A state in which the room with the empty id is live with a connected
member: A authenticated with `room_id: ""`, which `handle_client`
accepts (`auth_data.get("room_id", "general")` returns `""` when the
key is present with an empty value). -/
def emptyRoomSt : WebSocketManager :=
  (register_connection noFail initWSM 1 userA "").1

/-! ### Association-list and set lemmas -/

theorem dictGet_cons {α : Type} (p : String × α) (d : List (String × α)) (k : String) :
    dictGet (p :: d) k = if p.1 = k then some p.2 else dictGet d k := rfl

theorem dictDel_cons {α : Type} (p : String × α) (d : List (String × α)) (k : String) :
    dictDel (p :: d) k = if p.1 = k then dictDel d k else p :: dictDel d k := by
  by_cases hp : p.1 = k <;> simp [dictDel, List.filter_cons, hp]

theorem dictModify_cons {α : Type} (p : String × α) (d : List (String × α))
    (k : String) (f : α → α) :
    dictModify (p :: d) k f =
      (if p.1 = k then (p.1, f p.2) else p) :: dictModify d k f := by
  by_cases hp : p.1 = k <;> simp [dictModify, hp]

theorem dictGet_dictDel_self {α : Type} (d : List (String × α)) (k : String) :
    dictGet (dictDel d k) k = none := by
  induction d with
  | nil => rfl
  | cons p d ih =>
    rw [dictDel_cons]
    by_cases hp : p.1 = k
    · simpa [hp] using ih
    · simpa [hp, dictGet_cons] using ih

theorem dictGet_dictDel_ne {α : Type} (d : List (String × α)) {k k' : String}
    (h : k' ≠ k) : dictGet (dictDel d k) k' = dictGet d k' := by
  induction d with
  | nil => rfl
  | cons p d ih =>
    rw [dictDel_cons]
    by_cases hp : p.1 = k
    · have hpk' : p.1 ≠ k' := fun hh => h (hh ▸ hp)
      rw [if_pos hp, dictGet_cons, if_neg hpk']
      exact ih
    · rw [if_neg hp, dictGet_cons, dictGet_cons]
      by_cases hp' : p.1 = k'
      · rw [if_pos hp', if_pos hp']
      · rw [if_neg hp', if_neg hp']
        exact ih

theorem dictGet_dictSet_self {α : Type} (d : List (String × α)) (k : String) (v : α) :
    dictGet (dictSet d k v) k = some v := by
  induction d with
  | nil => simp [dictSet, dictGet]
  | cons p d ih =>
    by_cases hp : p.1 = k
    · simp [dictSet, hp, dictGet_cons]
    · simpa [dictSet, hp, dictGet_cons] using ih

theorem dictGet_dictSet_ne {α : Type} (d : List (String × α)) {k k' : String}
    (v : α) (h : k' ≠ k) : dictGet (dictSet d k v) k' = dictGet d k' := by
  have hk : k ≠ k' := fun hh => h hh.symm
  induction d with
  | nil => simp [dictSet, dictGet, hk]
  | cons p d ih =>
    by_cases hp : p.1 = k
    · have hpk' : p.1 ≠ k' := fun hh => h (hh ▸ hp)
      simp only [dictSet, if_pos hp, dictGet_cons, if_neg hk, if_neg hpk']
    · simp only [dictSet, if_neg hp, dictGet_cons]
      by_cases hp' : p.1 = k'
      · rw [if_pos hp', if_pos hp']
      · rw [if_neg hp', if_neg hp']
        exact ih

theorem dictGet_dictModify_self {α : Type} (d : List (String × α)) (k : String)
    (f : α → α) : dictGet (dictModify d k f) k = (dictGet d k).map f := by
  induction d with
  | nil => rfl
  | cons p d ih =>
    rw [dictModify_cons]
    by_cases hp : p.1 = k
    · simp [hp, dictGet_cons]
    · simpa [hp, dictGet_cons] using ih

theorem dictGet_dictModify_ne {α : Type} (d : List (String × α)) {k k' : String}
    (f : α → α) (h : k' ≠ k) :
    dictGet (dictModify d k f) k' = dictGet d k' := by
  induction d with
  | nil => rfl
  | cons p d ih =>
    rw [dictModify_cons]
    by_cases hp : p.1 = k
    · have hpk' : p.1 ≠ k' := fun hh => h (hh ▸ hp)
      rw [if_pos hp, dictGet_cons, dictGet_cons]
      simp only [hpk', if_neg, if_false]
      exact ih
    · rw [if_neg hp, dictGet_cons, dictGet_cons]
      by_cases hp' : p.1 = k'
      · rw [if_pos hp', if_pos hp']
      · rw [if_neg hp', if_neg hp']
        exact ih

theorem mem_dictSet {α : Type} {q : String × α} {d : List (String × α)}
    {k : String} {v : α} (h : q ∈ dictSet d k v) : q = (k, v) ∨ q ∈ d := by
  induction d with
  | nil => simpa [dictSet] using h
  | cons p d ih =>
    by_cases hp : p.1 = k
    · rw [dictSet, if_pos hp] at h
      rcases List.mem_cons.mp h with h | h
      · exact Or.inl h
      · exact Or.inr (List.mem_cons_of_mem _ h)
    · rw [dictSet, if_neg hp] at h
      rcases List.mem_cons.mp h with h | h
      · exact Or.inr (h ▸ List.mem_cons_self _ _)
      · rcases ih h with h' | h'
        · exact Or.inl h'
        · exact Or.inr (List.mem_cons_of_mem _ h')

theorem mem_dictModify {α : Type} {q : String × α} {d : List (String × α)}
    {k : String} {f : α → α} (h : q ∈ dictModify d k f) :
    q ∈ d ∨ ∃ p, p ∈ d ∧ q = (p.1, f p.2) := by
  rcases List.mem_map.mp h with ⟨p, hp, hq⟩
  by_cases hk : p.1 = k
  · right
    refine ⟨p, hp, ?_⟩
    rw [if_pos hk] at hq
    exact hq.symm
  · left
    rw [if_neg hk] at hq
    exact hq ▸ hp

theorem mem_setDiscard {s : List String} {x y : String} :
    y ∈ setDiscard s x ↔ y ∈ s ∧ y ≠ x := by
  simp [setDiscard]

theorem setDiscard_nodup {s : List String} (x : String) (hnd : s.Nodup) :
    (setDiscard s x).Nodup :=
  List.Nodup.filter _ hnd

theorem length_setDiscard_mem {s : List String} {x : String} (hnd : s.Nodup)
    (hx : x ∈ s) : (setDiscard s x).length = s.length - 1 := by
  induction s with
  | nil => cases hx
  | cons a s ih =>
    rcases List.mem_cons.mp hx with rfl | hx'
    · have hfilter : List.filter (fun y => decide (y ≠ x)) s = s :=
        List.filter_eq_self.mpr (fun y hy => by
          simp only [decide_eq_true_eq]
          exact fun hyx => (List.nodup_cons.mp hnd).1 (hyx ▸ hy))
      have hcond : ¬ (decide (x ≠ x) = true) := by simp
      rw [setDiscard, List.filter_cons, if_neg hcond, hfilter]
      simp
    · have ha : a ≠ x := by
        intro hax
        exact (List.nodup_cons.mp hnd).1 (hax ▸ hx')
      have hlen := ih (List.nodup_cons.mp hnd).2 hx'
      have hpos : 0 < s.length := List.length_pos.mpr (List.ne_nil_of_mem hx')
      rw [setDiscard] at hlen
      have hcond : decide (a ≠ x) = true := by simpa using ha
      rw [setDiscard, List.filter_cons, if_pos hcond]
      simp only [List.length_cons]
      omega

theorem setAdd_nodup {s : List String} (x : String) (hnd : s.Nodup) :
    (setAdd s x).Nodup := by
  unfold setAdd
  by_cases hx : x ∈ s
  · simpa [hx] using hnd
  · rw [if_neg hx]
    refine List.Nodup.append hnd (List.nodup_singleton x) ?_
    intro y hy hyx
    rw [List.mem_singleton] at hyx
    exact hx (hyx ▸ hy)

theorem length_setAdd_not_mem {s : List String} {x : String} (hx : x ∉ s) :
    (setAdd s x).length = s.length + 1 := by
  simp [setAdd, hx]

theorem mem_setAdd {s : List String} {x y : String} :
    y ∈ setAdd s x ↔ y ∈ s ∨ y = x := by
  by_cases hx : x ∈ s
  · simp only [setAdd, if_pos hx]
    constructor
    · exact Or.inl
    · rintro (h | rfl)
      · exact h
      · exact hx
  · simp [setAdd, if_neg hx]

/-! ### Broadcast-pass lemmas -/

/-- Every event emitted by the delivery pass carries the broadcast payload. -/
theorem broadcastPass_events_msg (sendFails : Nat → Bool) (conns : List (String × Nat))
    (message : WireMsg) (excl : Option String) (ms : List String) :
    ∀ e ∈ (broadcastPass sendFails conns message excl ms).1, e.msg = message := by
  induction ms with
  | nil => intro e he; cases he
  | cons a rest ih =>
    intro e he
    simp only [broadcastPass] at he
    split at he
    · exact ih e he
    · split at he
      · exact ih e he
      · split at he
        · rcases List.mem_cons.mp he with rfl | he'
          · rfl
          · exact ih e he'
        · rcases List.mem_cons.mp he with rfl | he'
          · rfl
          · exact ih e he'

/-- `broadcast_to_room` on an unknown room: nothing happens. -/
theorem broadcast_to_room_of_none (sendFails : Nat → Bool) (st : WebSocketManager)
    (room_id : String) (message : WireMsg) (excl : Option String)
    (hm : dictGet st.room_users room_id = none) :
    broadcast_to_room sendFails st room_id message excl = ⟨st, [], 0, []⟩ := by
  unfold broadcast_to_room
  rw [hm]

/-- `broadcast_to_room` on a known room: one pass, then deferred cleanup. -/
theorem broadcast_to_room_of_some (sendFails : Nat → Bool) (st : WebSocketManager)
    (room_id : String) (message : WireMsg) (excl : Option String)
    (members : List String)
    (hm : dictGet st.room_users room_id = some members) :
    broadcast_to_room sendFails st room_id message excl =
      ⟨(broadcastPass sendFails st.connections message excl members).2.2.foldl
          unregister_connection st,
        (broadcastPass sendFails st.connections message excl members).1,
        (broadcastPass sendFails st.connections message excl members).2.1,
        (broadcastPass sendFails st.connections message excl members).2.2⟩ := by
  unfold broadcast_to_room
  rw [hm]

/-- Every event of a room broadcast carries the broadcast payload. -/
theorem broadcast_to_room_events_msg (sendFails : Nat → Bool) (st : WebSocketManager)
    (room_id : String) (message : WireMsg) (excl : Option String) :
    ∀ e ∈ (broadcast_to_room sendFails st room_id message excl).events,
      e.msg = message := by
  intro e he
  cases hm : dictGet st.room_users room_id with
  | none =>
    rw [broadcast_to_room_of_none sendFails st room_id message excl hm] at he
    cases he
  | some members =>
    rw [broadcast_to_room_of_some sendFails st room_id message excl members hm] at he
    exact broadcastPass_events_msg sendFails _ _ _ _ e he

/-- The events of `register_connection` are exactly the events of its
`user_joined` broadcast (for the intermediate state and count it built). -/
theorem register_connection_events_shape (sendFails : Nat → Bool)
    (st : WebSocketManager) (ws : Nat) (user : User) (room_id : String) :
    ∃ st' au, (register_connection sendFails st ws user room_id).2 =
      (broadcast_to_room sendFails st' room_id (WireMsg.user_joined user au)
        (some user.user_id)).events :=
  ⟨_, _, rfl⟩

/-! ### Claim C4: the moderation decision -/

/-- C4: `moderate_message` approves every message whose author is a
moderator or a streamer; for a viewer it rejects exactly when the
lower-cased content contains one of `"spam"`, `"toxic"`, `"hate"`, and
approves otherwise.  The decision is a pure function of the message and
the author (the embedding is a total function with no state), hence
deterministic and side-effect free. -/
theorem C4_moderation_decision (m : ChatMessage) (u : User) :
    ((u.role = UserRole.moderator ∨ u.role = UserRole.streamer) →
      moderate_message m u = true) ∧
    (u.role = UserRole.viewer →
      (moderate_message m u = false ↔
        (strContains (lowerStr m.content) "spam" = true ∨
         strContains (lowerStr m.content) "toxic" = true ∨
         strContains (lowerStr m.content) "hate" = true))) := by
  constructor
  · intro h
    unfold moderate_message
    rw [if_pos h]
  · intro hv
    have hnot : ¬ (u.role = UserRole.moderator ∨ u.role = UserRole.streamer) := by
      rw [hv]
      rintro (h | h) <;> exact UserRole.noConfusion h
    unfold moderate_message
    rw [if_neg hnot]
    simp only [blocked_words, List.any_cons, List.any_nil, Bool.or_false]
    cases h1 : strContains (lowerStr m.content) "spam" <;>
      cases h2 : strContains (lowerStr m.content) "toxic" <;>
        cases h3 : strContains (lowerStr m.content) "hate" <;> simp

/-- Witness for C4 at a concrete input: viewer B's `"this is spam"` is
rejected. -/
theorem C4_moderation_decision_witness :
    userB.role = UserRole.viewer ∧ moderate_message spamMsg userB = false :=
  ⟨rfl, ((C4_moderation_decision spamMsg userB).2 rfl).mpr (Or.inl (by decide))⟩

/-! ### Claim C8: a rejected message has no effect -/

/-- C8: when moderation rejects a chat message, `handle_chat_message`
returns `False` immediately: no broadcast, no durability store, no reply
of any kind to anyone, and the whole manager state — registry maps and
all metrics counters, the delivered-message counter included — is left
unchanged. -/
theorem C8_rejected_message_no_effect (sendFails : Nat → Bool)
    (st : WebSocketManager) (user : User) (content message_id : String)
    (timestamp : Nat)
    (hrej : moderate_message
      { message_id := message_id, user_id := user.user_id,
        username := user.username, content := content, timestamp := timestamp,
        room_id := (dictGet st.user_rooms user.user_id).getD "" } user = false) :
    handle_chat_message sendFails st user content message_id timestamp =
      ⟨st, [], [], false⟩ := by
  unfold handle_chat_message
  simp [hrej]

/-- Witness for C8: viewer B's `"this is spam"` on the fresh manager. -/
theorem C8_rejected_message_no_effect_witness :
    moderate_message
      { message_id := "m1", user_id := "uB", username := "B",
        content := "this is spam", timestamp := 0,
        room_id := (dictGet initWSM.user_rooms "uB").getD "" } userB = false ∧
    handle_chat_message noFail initWSM userB "this is spam" "m1" 0 =
      ⟨initWSM, [], [], false⟩ :=
  ⟨by decide,
   C8_rejected_message_no_effect noFail initWSM userB "this is spam" "m1" 0
     (by decide)⟩

/-! ### Claim C2: the delivery pass iterates the live set, not a copy -/

/-- C2 (code bug): `broadcast_to_room` iterates
`self.room_users[room_id]` itself — no copy is taken — so a membership
mutation at an awaited send mid-pass changes the set's size and the next
iterator step raises `RuntimeError`, contradicting the claim that no
iteration error can ever occur.  Concretely: room of three members, and
during the first awaited send a concurrent task deregisters the third
member; the pass dies after one delivery.  The mandated snapshot
semantics would have completed the pass over all three members. -/
theorem C2_live_iteration_error :
    liveSetFanout 3 ["uA", "uB", "uC"] ["uA", "uB", "uC"]
      [some "uC", none, none] [] = FanoutOutcome.iterationError ["uA"] ∧
    snapshotFanout ["uA", "uB", "uC"] =
      FanoutOutcome.completed ["uA", "uB", "uC"] := by
  constructor <;> rfl

/-! ### Claim C1: the status snapshot after scenario 1 + 2 -/

/-- C1 (counterexample): after two successful registrations and one
deregistration, the snapshot does NOT report disconnections = 1 and
uptime = 50.0 — `unregister_connection` never touches
`disconnection_count` (the only increment is in `register_connection`'s
exception handler), so the counter is still 0 and the uptime 100.0. -/
theorem C1_counterexample :
    ¬ (scenarioSt.metrics.connection_count = 2 ∧
       scenarioSt.metrics.disconnection_count = 1 ∧
       (get_system_status scenarioSt).uptime_percentage = 50) := by
  intro h
  have h2 := h.2.1
  have h0 : scenarioSt.metrics.disconnection_count = 0 := by decide
  rw [h0] at h2
  exact absurd h2 (by decide)

/-- C1 (amended): what the snapshot actually reports after scenario 1+2:
connections = 2, disconnections = 0, uptimePercentage = 100.0. -/
theorem C1_amended_status :
    scenarioSt.metrics.connection_count = 2 ∧
    scenarioSt.metrics.disconnection_count = 0 ∧
    (get_system_status scenarioSt).uptime_percentage = 100 := by
  refine ⟨by decide, by decide, ?_⟩
  have h : scenarioSt.metrics = ⟨0, 0, 2, 0⟩ := by decide
  show scenarioSt.metrics.get_uptime_percentage = 100
  rw [h]
  norm_num [AvailabilityMetrics.get_uptime_percentage]

/-! ### Claim C3: confirmation versus the user_joined broadcast -/

/-- C3 (counterexample): with A already in `R1`, B's successful
authentication produces the send sequence
`[user_joined to A, connection_confirmed to B]`: the `user_joined`
broadcast to the other member is delivered at index 0, strictly before
the confirmation at index 1 — so the confirmation is NOT sent before the
broadcast, as the claim requires. -/
theorem C3_counterexample :
    ¬ (∀ i j (hi : i < c3Trace.length) (hj : j < c3Trace.length),
        isConfirmed (c3Trace.get ⟨i, hi⟩) = true →
        isUserJoined (c3Trace.get ⟨j, hj⟩) = true → i < j) := by
  intro h
  have h1 : (1 : Nat) < c3Trace.length := by decide
  have h0 : (0 : Nat) < c3Trace.length := by decide
  have hc : isConfirmed (c3Trace.get ⟨1, h1⟩) = true := rfl
  have hj : isUserJoined (c3Trace.get ⟨0, h0⟩) = true := rfl
  exact absurd (h 1 0 h1 h0 hc hj) (by decide)

/-- C3 (amended): in every successful authentication the trace is the
registration's events followed by the `connection_confirmed` reply, and
every registration event is a `user_joined` broadcast delivery — i.e.
the `user_joined` broadcast to the room precedes the confirmation reply
to the new connection. -/
theorem C3_amended_order (sendFails : Nat → Bool) (st : WebSocketManager)
    (websocket : Nat) (user : User) (room_id : String) :
    (handle_client_auth sendFails st websocket user room_id).2 =
      (register_connection sendFails st websocket user room_id).2 ++
        [⟨user.user_id, WireMsg.connection_confirmed user.user_id room_id,
          !sendFails websocket⟩] ∧
    ∀ e ∈ (register_connection sendFails st websocket user room_id).2,
      isUserJoined e = true := by
  constructor
  · rfl
  · intro e he
    rcases register_connection_events_shape sendFails st websocket user room_id with
      ⟨st', au, hshape⟩
    rw [hshape] at he
    have := broadcast_to_room_events_msg sendFails st' room_id _ _ e he
    rw [isUserJoined, this]

/-- Witness for C3 (amended) at the concrete scenario trace: the first
event of B's authentication is the `user_joined` delivery to A. -/
theorem C3_amended_order_witness :
    isUserJoined ⟨"uA",
      WireMsg.user_joined userB 2, true⟩ = true := by
  have hmem : (⟨"uA", WireMsg.user_joined userB 2, true⟩ : SendEvent) ∈
      (register_connection noFail
        ((register_connection noFail initWSM 1 userA "R1").1) 2 userB "R1").2 := by
    decide
  exact (C3_amended_order noFail
    ((register_connection noFail initWSM 1 userA "R1").1) 2 userB "R1").2 _ hmem

/-! ### Unregister lemmas -/

/-- After `unregister_connection st u`, `u` has no connection handle. -/
theorem unregister_connections_self (st : WebSocketManager) (u : String) :
    dictGet (unregister_connection st u).connections u = none := by
  unfold unregister_connection
  by_cases h : (dictGet st.connections u).isSome
  · rw [if_pos h]
    exact dictGet_dictDel_self _ u
  · rw [if_neg h]
    exact Option.not_isSome_iff_eq_none.mp h

/-- `unregister_connection` on an id with no connection is a no-op
(the `user_id in self.connections` guard). -/
theorem unregister_noop (st : WebSocketManager) {u : String}
    (h : dictGet st.connections u = none) : unregister_connection st u = st := by
  unfold unregister_connection
  rw [h]
  rfl

/-- `unregister_connection` never creates a connection entry. -/
theorem unregister_preserves_no_connection (st : WebSocketManager) {u : String}
    (h : dictGet st.connections u = none) (u' : String) :
    dictGet (unregister_connection st u').connections u = none := by
  unfold unregister_connection
  by_cases hg : (dictGet st.connections u').isSome
  · rw [if_pos hg]
    by_cases huu : u = u'
    · subst huu
      exact dictGet_dictDel_self _ u
    · show dictGet (dictDel st.connections u') u = none
      rw [dictGet_dictDel_ne _ huu]
      exact h
  · rw [if_neg hg]
    exact h

/-- Absence of a connection entry survives any cleanup fold. -/
theorem foldl_unregister_no_connection (l : List String) (st : WebSocketManager)
    {u : String} (h : dictGet st.connections u = none) :
    dictGet (l.foldl unregister_connection st).connections u = none := by
  induction l generalizing st with
  | nil => exact h
  | cons a l ih => exact ih _ (unregister_preserves_no_connection st h a)

/-- Everyone in the cleanup list ends up without a connection entry. -/
theorem foldl_unregister_mem_none (l : List String) (st : WebSocketManager)
    {u : String} (h : u ∈ l) :
    dictGet (l.foldl unregister_connection st).connections u = none := by
  induction l generalizing st with
  | nil => cases h
  | cons a l ih =>
    rcases List.mem_cons.mp h with rfl | h'
    · exact foldl_unregister_no_connection l _ (unregister_connections_self st u)
    · exact ih _ h'

/-- The `active_rooms` produced by the cleanup: either untouched, or one
room's count floor-decremented. -/
theorem roomCleanup_act_cases (st : WebSocketManager) (u : String) :
    (roomCleanup st u).2 = st.active_rooms ∨
    ∃ rid, (roomCleanup st u).2 = dictModify st.active_rooms rid
      (fun r => { r with active_users := max 0 (r.active_users - 1) }) := by
  unfold roomCleanup
  cases h : dictGet st.user_rooms u with
  | none => exact Or.inl rfl
  | some rid =>
    dsimp only
    by_cases hc : rid ≠ "" ∧ (dictGet st.room_users rid).isSome = true
    · rw [if_pos hc]
      dsimp only
      by_cases ha : (dictGet st.active_rooms rid).isSome = true
      · rw [if_pos ha]
        exact Or.inr ⟨rid, rfl⟩
      · rw [if_neg ha]
        exact Or.inl rfl
    · rw [if_neg hc]
      exact Or.inl rfl

/-- The `room_users` produced by the cleanup: either untouched, or the
user discarded from one room's membership set. -/
theorem roomCleanup_rooms_cases (st : WebSocketManager) (u : String) :
    (roomCleanup st u).1 = st.room_users ∨
    ∃ rid, dictGet st.user_rooms u = some rid ∧
      (roomCleanup st u).1 =
        dictModify st.room_users rid (fun ms => setDiscard ms u) := by
  unfold roomCleanup
  cases h : dictGet st.user_rooms u with
  | none => exact Or.inl rfl
  | some rid =>
    dsimp only
    by_cases hc : rid ≠ "" ∧ (dictGet st.room_users rid).isSome = true
    · rw [if_pos hc]
      exact Or.inr ⟨rid, rfl, rfl⟩
    · rw [if_neg hc]
      exact Or.inl rfl

/-! ### Non-negative member counts (claim C5) -/

/-- Floor-decrementing preserves non-negative counts. -/
theorem nonneg_dictModify_max (d : List (String × ChatRoom)) (rid : String)
    (h : ∀ p ∈ d, 0 ≤ p.2.active_users) :
    ∀ p ∈ dictModify d rid
        (fun r => { r with active_users := max 0 (r.active_users - 1) }),
      0 ≤ p.2.active_users := by
  intro p hp
  rcases mem_dictModify hp with hp' | ⟨q, hq, rfl⟩
  · exact h p hp'
  · exact le_max_left 0 _

/-- `unregister_connection` preserves non-negative counts. -/
theorem nonneg_unregister (st : WebSocketManager) (u : String)
    (h : ∀ p ∈ st.active_rooms, 0 ≤ p.2.active_users) :
    ∀ p ∈ (unregister_connection st u).active_rooms, 0 ≤ p.2.active_users := by
  intro p hp
  unfold unregister_connection at hp
  by_cases hg : (dictGet st.connections u).isSome
  · rw [if_pos hg] at hp
    have hp2 : p ∈ (roomCleanup st u).2 := hp
    rcases roomCleanup_act_cases st u with hc | ⟨rid, hc⟩
    · rw [hc] at hp2
      exact h p hp2
    · rw [hc] at hp2
      exact nonneg_dictModify_max st.active_rooms rid h p hp2
  · rw [if_neg hg] at hp
    exact h p hp

/-- The deferred-cleanup fold preserves non-negative counts. -/
theorem nonneg_foldl_unregister (l : List String) (st : WebSocketManager)
    (h : ∀ p ∈ st.active_rooms, 0 ≤ p.2.active_users) :
    ∀ p ∈ (l.foldl unregister_connection st).active_rooms,
      0 ≤ p.2.active_users := by
  induction l generalizing st with
  | nil => exact h
  | cons a l ih => exact ih _ (nonneg_unregister st a h)

/-- `broadcast_to_room` preserves non-negative counts. -/
theorem nonneg_broadcast (sendFails : Nat → Bool) (st : WebSocketManager)
    (room_id : String) (message : WireMsg) (excl : Option String)
    (h : ∀ p ∈ st.active_rooms, 0 ≤ p.2.active_users) :
    ∀ p ∈ (broadcast_to_room sendFails st room_id message excl).st.active_rooms,
      0 ≤ p.2.active_users := by
  cases hm : dictGet st.room_users room_id with
  | none =>
    rw [broadcast_to_room_of_none sendFails st room_id message excl hm]
    exact h
  | some members =>
    rw [broadcast_to_room_of_some sendFails st room_id message excl members hm]
    exact nonneg_foldl_unregister _ st h

/-- The pre-broadcast registration updates preserve non-negative counts:
a lazily created room starts at 0 and the joined room is incremented. -/
theorem nonneg_registerPre (st : WebSocketManager) (ws : Nat) (user : User)
    (rid : String) (h : ∀ p ∈ st.active_rooms, 0 ≤ p.2.active_users) :
    ∀ p ∈ (registerPre st ws user rid).active_rooms, 0 ≤ p.2.active_users := by
  intro p hp
  unfold registerPre at hp
  dsimp only at hp
  by_cases hr : (dictGet st.room_users rid).isSome = true
  · rw [if_pos hr] at hp
    dsimp only at hp
    rcases mem_dictModify hp with hp' | ⟨q, hq, rfl⟩
    · exact h p hp'
    · have := h q hq
      show 0 ≤ q.2.active_users + 1
      omega
  · rw [if_neg hr] at hp
    dsimp only at hp
    rcases mem_dictModify hp with hp' | ⟨q, hq, rfl⟩
    · rcases mem_dictSet hp' with rfl | hp''
      · exact le_refl 0
      · exact h p hp''
    · rcases mem_dictSet hq with heq | hq'
      · subst heq
        show (0 : Int) ≤ 0 + 1
        omega
      · have := h q hq'
        show 0 ≤ q.2.active_users + 1
        omega

/-- `register_connection` preserves non-negative counts. -/
theorem nonneg_register (sendFails : Nat → Bool) (st : WebSocketManager)
    (ws : Nat) (user : User) (rid : String)
    (h : ∀ p ∈ st.active_rooms, 0 ≤ p.2.active_users) :
    ∀ p ∈ (register_connection sendFails st ws user rid).1.active_rooms,
      0 ≤ p.2.active_users := by
  intro p hp
  have hp2 : p ∈ (broadcast_to_room sendFails (registerPre st ws user rid) rid
      (WireMsg.user_joined user (roomCount (registerPre st ws user rid) rid))
      (some user.user_id)).st.active_rooms := hp
  exact nonneg_broadcast _ _ _ _ _ (nonneg_registerPre st ws user rid h) p hp2

/-! ### Claim C5: deregistration is idempotent; counts never negative -/

/-- C5: `unregister_connection` is idempotent — the second call for the
same id finds the id gone from `connections` and is a no-op, so the whole
observable state (registry maps, room directory and metrics) equals the
state after a single call — and no sequence of register/deregister
operations run from the fresh manager ever drives any room's live-member
count below zero (registration adds 1, deregistration uses a
`max(0, ...)` floor). -/
theorem C5_deregister_idempotent_and_nonneg :
    (∀ st uid, unregister_connection (unregister_connection st uid) uid =
        unregister_connection st uid) ∧
    (∀ ops, ∀ p ∈ (runOps initWSM ops).active_rooms, 0 ≤ p.2.active_users) := by
  constructor
  · intro st uid
    exact unregister_noop _ (unregister_connections_self st uid)
  · have hgen : ∀ ops st, (∀ p ∈ st.active_rooms, 0 ≤ p.2.active_users) →
        ∀ p ∈ (runOps st ops).active_rooms, 0 ≤ p.2.active_users := by
      intro ops
      induction ops with
      | nil => intro st h; exact h
      | cons op ops ih =>
        intro st h
        cases op with
        | reg f ws u rid => exact ih _ (nonneg_register f st ws u rid h)
        | unreg uid => exact ih _ (nonneg_unregister st uid h)
    intro ops
    exact hgen ops initWSM (by intro p hp; cases hp)

/-- Witness for C5 at concrete inputs: a double deregistration on the
fresh manager, and the non-negative count of `R1` after one register. -/
theorem C5_deregister_idempotent_and_nonneg_witness :
    unregister_connection (unregister_connection initWSM "uA") "uA" =
      unregister_connection initWSM "uA" ∧
    0 ≤ (("R1", room1) : String × ChatRoom).2.active_users :=
  ⟨C5_deregister_idempotent_and_nonneg.1 initWSM "uA",
   C5_deregister_idempotent_and_nonneg.2 [RegOp.reg noFail 1 userA "R1"]
     ("R1", room1) (by decide)⟩

/-! ### Delivery-pass bookkeeping lemmas -/

/-- Exactly the reachable members whose send fails end up in
`failed_connections`: in the room, not excluded, with a connection handle
whose send raises. -/
theorem broadcastPass_failed_iff (sendFails : Nat → Bool)
    (conns : List (String × Nat)) (message : WireMsg) (excl : Option String)
    (ms : List String) (u : String) :
    u ∈ (broadcastPass sendFails conns message excl ms).2.2 ↔
      (u ∈ ms ∧ some u ≠ excl ∧
        ∃ h, dictGet conns u = some h ∧ sendFails h = true) := by
  induction ms with
  | nil =>
    constructor
    · intro h
      simp [broadcastPass] at h
    · rintro ⟨h, -, -⟩
      exact absurd h (List.not_mem_nil u)
  | cons a rest ih =>
    simp only [broadcastPass]
    split
    next hex =>
      rw [ih]
      constructor
      · rintro ⟨hm, hne, hh⟩
        exact ⟨List.mem_cons_of_mem _ hm, hne, hh⟩
      · rintro ⟨hm, hne, hh⟩
        rcases List.mem_cons.mp hm with rfl | hm'
        · exact absurd hex hne
        · exact ⟨hm', hne, hh⟩
    next hex =>
      split
      next hca =>
        rw [ih]
        constructor
        · rintro ⟨hm, hne, hh⟩
          exact ⟨List.mem_cons_of_mem _ hm, hne, hh⟩
        · rintro ⟨hm, hne, h, hch, hfh⟩
          rcases List.mem_cons.mp hm with rfl | hm'
          · rw [hca] at hch
            cases hch
          · exact ⟨hm', hne, h, hch, hfh⟩
      next hh0 hca =>
        split
        next hf =>
          constructor
          · intro hm
            rcases List.mem_cons.mp hm with rfl | hm'
            · exact ⟨List.mem_cons_self _ _, hex, hh0, hca, hf⟩
            · rcases ih.mp hm' with ⟨hm2, hne, hh⟩
              exact ⟨List.mem_cons_of_mem _ hm2, hne, hh⟩
          · rintro ⟨hm, hne, h, hch, hfh⟩
            rcases List.mem_cons.mp hm with rfl | hm'
            · exact List.mem_cons_self _ _
            · exact List.mem_cons_of_mem _ (ih.mpr ⟨hm', hne, h, hch, hfh⟩)
        next hf =>
          rw [ih]
          constructor
          · rintro ⟨hm, hne, hh⟩
            exact ⟨List.mem_cons_of_mem _ hm, hne, hh⟩
          · rintro ⟨hm, hne, h, hch, hfh⟩
            rcases List.mem_cons.mp hm with rfl | hm'
            · rw [hca] at hch
              injection hch with hch
              subst hch
              exact absurd hfh hf
            · exact ⟨hm', hne, h, hch, hfh⟩

/-- Every reachable member gets a send attempt, whatever happens to the
other recipients. -/
theorem broadcastPass_attempt (sendFails : Nat → Bool)
    (conns : List (String × Nat)) (message : WireMsg) (excl : Option String)
    (ms : List String) {u : String} {h : Nat}
    (hm : u ∈ ms) (hne : some u ≠ excl) (hc : dictGet conns u = some h) :
    ∃ e ∈ (broadcastPass sendFails conns message excl ms).1,
      e.recipient = u := by
  induction ms with
  | nil => cases hm
  | cons a rest ih =>
    simp only [broadcastPass]
    split
    next hex =>
      rcases List.mem_cons.mp hm with rfl | hm'
      · exact absurd hex hne
      · exact ih hm'
    next hex =>
      split
      next hca =>
        rcases List.mem_cons.mp hm with rfl | hm'
        · rw [hca] at hc
          cases hc
        · exact ih hm'
      next hh0 hca =>
        split
        next hf =>
          rcases List.mem_cons.mp hm with rfl | hm'
          · exact ⟨⟨u, message, false⟩, List.mem_cons_self _ _, rfl⟩
          · rcases ih hm' with ⟨e, he, hr⟩
            exact ⟨e, List.mem_cons_of_mem _ he, hr⟩
        next hf =>
          rcases List.mem_cons.mp hm with rfl | hm'
          · exact ⟨⟨u, message, true⟩, List.mem_cons_self _ _, rfl⟩
          · rcases ih hm' with ⟨e, he, hr⟩
            exact ⟨e, List.mem_cons_of_mem _ he, hr⟩

/-- Every send attempt goes to a member that has a connection handle. -/
theorem broadcastPass_events_conn (sendFails : Nat → Bool)
    (conns : List (String × Nat)) (message : WireMsg) (excl : Option String)
    (ms : List String) :
    ∀ e ∈ (broadcastPass sendFails conns message excl ms).1,
      ∃ h, dictGet conns e.recipient = some h := by
  induction ms with
  | nil =>
    intro e he
    cases he
  | cons a rest ih =>
    intro e he
    simp only [broadcastPass] at he
    split at he
    · exact ih e he
    · split at he
      next hca => exact ih e he
      next hh0 hca =>
        split at he
        · rcases List.mem_cons.mp he with rfl | he'
          · exact ⟨hh0, hca⟩
          · exact ih e he'
        · rcases List.mem_cons.mp he with rfl | he'
          · exact ⟨hh0, hca⟩
          · exact ih e he'

/-- `successful_sends` counts exactly the events whose send succeeded. -/
theorem broadcastPass_succ_count (sendFails : Nat → Bool)
    (conns : List (String × Nat)) (message : WireMsg) (excl : Option String)
    (ms : List String) :
    (broadcastPass sendFails conns message excl ms).2.1 =
      ((broadcastPass sendFails conns message excl ms).1.filter
        (fun e => e.ok)).length := by
  induction ms with
  | nil => rfl
  | cons a rest ih =>
    simp only [broadcastPass]
    split
    · exact ih
    · split
      · exact ih
      · split
        next hf => simpa [List.filter_cons] using ih
        next hf => simp [List.filter_cons, ih]

/-- Deregistering a different user never removes `u` from a room's
membership set. -/
theorem unregister_keeps_other_member (st : WebSocketManager)
    {room u u' : String} {ms : List String} (hne : u ≠ u')
    (h : dictGet st.room_users room = some ms) (hu : u ∈ ms) :
    ∃ ms', dictGet (unregister_connection st u').room_users room = some ms' ∧
      u ∈ ms' := by
  unfold unregister_connection
  by_cases hg : (dictGet st.connections u').isSome
  · rw [if_pos hg]
    show ∃ ms', dictGet (roomCleanup st u').1 room = some ms' ∧ u ∈ ms'
    rcases roomCleanup_rooms_cases st u' with hc | ⟨rid, hur, hc⟩
    · rw [hc]
      exact ⟨ms, h, hu⟩
    · rw [hc]
      by_cases hrr : room = rid
      · subst hrr
        refine ⟨setDiscard ms u', ?_, mem_setDiscard.mpr ⟨hu, hne⟩⟩
        rw [dictGet_dictModify_self, h]
        rfl
      · refine ⟨ms, ?_, hu⟩
        rw [dictGet_dictModify_ne _ _ hrr]
        exact h
  · rw [if_neg hg]
    exact ⟨ms, h, hu⟩

/-- Deferred cleanup of other users keeps `u` in its room's set. -/
theorem foldl_unregister_keeps_member (l : List String) :
    ∀ (st : WebSocketManager) (room u : String) (ms : List String),
      (∀ x ∈ l, x ≠ u) → dictGet st.room_users room = some ms → u ∈ ms →
      ∃ ms', dictGet (l.foldl unregister_connection st).room_users room =
        some ms' ∧ u ∈ ms' := by
  induction l with
  | nil =>
    intro st room u ms hl h hu
    exact ⟨ms, h, hu⟩
  | cons a l ih =>
    intro st room u ms hl h hu
    have hne : u ≠ a := fun hh => (hl a (List.mem_cons_self a l)) hh.symm
    rcases unregister_keeps_other_member st hne h hu with ⟨ms1, h1, hu1⟩
    exact ih _ room u ms1 (fun x hx => hl x (List.mem_cons_of_mem _ hx)) h1 hu1

/-! ### Claim C6: failure handling in the broadcast pass -/

/-- C6: for every broadcast on a known room — in particular whenever some
deliveries fail — (a) the recorded failure list holds exactly the
members whose own send failed (each failure recorded per recipient),
(b) every reachable member still gets its send attempt, so no failure
aborts the deliveries to the remaining members, (c) after the delivery
pass every user whose delivery failed has been deregistered.  The
embedding of the broadcast is a total function — every per-send
exception is caught inside the loop — so the broadcast itself raises no
error. -/
theorem C6_broadcast_failure_handling (sendFails : Nat → Bool)
    (st : WebSocketManager) (room_id : String) (message : WireMsg)
    (exclude_user : Option String) (members : List String)
    (hm : dictGet st.room_users room_id = some members) :
    (∀ u, u ∈ (broadcast_to_room sendFails st room_id message
          exclude_user).failed_connections ↔
        (u ∈ members ∧ some u ≠ exclude_user ∧
          ∃ h, dictGet st.connections u = some h ∧ sendFails h = true)) ∧
    (∀ u h, u ∈ members → some u ≠ exclude_user →
        dictGet st.connections u = some h →
        ∃ e ∈ (broadcast_to_room sendFails st room_id message
            exclude_user).events, e.recipient = u) ∧
    (∀ u, u ∈ (broadcast_to_room sendFails st room_id message
          exclude_user).failed_connections →
        dictGet (broadcast_to_room sendFails st room_id message
          exclude_user).st.connections u = none) := by
  rw [broadcast_to_room_of_some sendFails st room_id message exclude_user members hm]
  refine ⟨?_, ?_, ?_⟩
  · intro u
    exact broadcastPass_failed_iff sendFails st.connections message exclude_user
      members u
  · intro u h hmem hne hc
    exact broadcastPass_attempt sendFails st.connections message exclude_user
      members hmem hne hc
  · intro u hu
    exact foldl_unregister_mem_none _ st hu

/-- Witness for C6: in the scenario state (B alone in `R1`, handle 2),
a broadcast in which every send fails records B's failure and
deregisters B. -/
theorem C6_broadcast_failure_handling_witness :
    dictGet scenarioSt.room_users "R1" = some ["uB"] ∧
    "uB" ∈ (broadcast_to_room (fun _ => true) scenarioSt "R1"
      (WireMsg.connection_confirmed "x" "R1") none).failed_connections ∧
    dictGet (broadcast_to_room (fun _ => true) scenarioSt "R1"
      (WireMsg.connection_confirmed "x" "R1") none).st.connections "uB" =
      none := by
  have hm : dictGet scenarioSt.room_users "R1" = some ["uB"] := by decide
  have happ := C6_broadcast_failure_handling (fun _ => true) scenarioSt "R1"
    (WireMsg.connection_confirmed "x" "R1") none ["uB"] hm
  have hfail := (happ.1 "uB").mpr
    ⟨List.mem_cons_self _ _, Option.some_ne_none _, 2, by decide, rfl⟩
  exact ⟨hm, hfail, happ.2.2 "uB" hfail⟩

/-! ### Claim C9: members without a connection handle are skipped -/

/-- C9: a user id in the room's membership set with no entry in
`connections` is silently skipped by the delivery pass: no send attempt
is addressed to it, it appears in neither tally (`successful_sends`
counts exactly the successful attempts, and it is not in
`failed_connections`), and it is not deregistered by the deferred
cleanup — it is still in the room's membership set afterwards. -/
theorem C9_member_without_connection_skipped (sendFails : Nat → Bool)
    (st : WebSocketManager) (room_id : String) (message : WireMsg)
    (exclude_user : Option String) (members : List String) (u : String)
    (hm : dictGet st.room_users room_id = some members)
    (hmem : u ∈ members)
    (hc : dictGet st.connections u = none) :
    (∀ e ∈ (broadcast_to_room sendFails st room_id message
        exclude_user).events, e.recipient ≠ u) ∧
    u ∉ (broadcast_to_room sendFails st room_id message
        exclude_user).failed_connections ∧
    (broadcast_to_room sendFails st room_id message
        exclude_user).successful_sends =
      ((broadcast_to_room sendFails st room_id message
        exclude_user).events.filter (fun e => e.ok)).length ∧
    ∃ ms', dictGet (broadcast_to_room sendFails st room_id message
        exclude_user).st.room_users room_id = some ms' ∧ u ∈ ms' := by
  rw [broadcast_to_room_of_some sendFails st room_id message exclude_user members hm]
  refine ⟨?_, ?_, ?_, ?_⟩
  · intro e he heq
    rcases broadcastPass_events_conn sendFails st.connections message
      exclude_user members e he with ⟨h, hch⟩
    rw [heq, hc] at hch
    cases hch
  · intro hu
    rcases (broadcastPass_failed_iff sendFails st.connections message
      exclude_user members u).mp hu with ⟨-, -, h, hch, -⟩
    rw [hc] at hch
    cases hch
  · exact broadcastPass_succ_count sendFails st.connections message
      exclude_user members
  · refine foldl_unregister_keeps_member _ st room_id u members ?_ hm hmem
    intro x hx hxu
    rcases (broadcastPass_failed_iff sendFails st.connections message
      exclude_user members x).mp hx with ⟨-, -, h, hch, -⟩
    rw [hxu, hc] at hch
    cases hch

/-- Witness for C9 on `orphanSt`: `uA` sits in room `""`'s membership
set with no connection, and a broadcast to that room leaves it in place,
unrecorded in either tally. -/
theorem C9_member_without_connection_skipped_witness :
    dictGet orphanSt.room_users "" = some ["uA"] ∧
    dictGet orphanSt.connections "uA" = none ∧
    ("uA" ∉ (broadcast_to_room noFail orphanSt ""
        (WireMsg.connection_confirmed "x" "") none).failed_connections ∧
      ∃ ms', dictGet (broadcast_to_room noFail orphanSt ""
        (WireMsg.connection_confirmed "x" "") none).st.room_users "" =
          some ms' ∧ "uA" ∈ ms') := by
  have hm : dictGet orphanSt.room_users "" = some ["uA"] := by decide
  have hc : dictGet orphanSt.connections "uA" = none := by decide
  have happ := C9_member_without_connection_skipped noFail orphanSt ""
    (WireMsg.connection_confirmed "x" "") none ["uA"] "uA" hm
    (List.mem_cons_self _ _) hc
  exact ⟨hm, hc, happ.2.1, happ.2.2.2⟩

/-! ### Claim C10: a sender with no reverse mapping -/

/-- C10 (counterexample): the broadcast of an unmapped sender's approved
message is NOT always a no-op delivering to nobody.  In `emptyRoomSt`
the room with the empty id is live with connected member A, `uC` has no
entry in `user_rooms`, and C's approved `"hello"` — created with room id
`""` — is delivered to A. -/
theorem C10_counterexample :
    dictGet emptyRoomSt.user_rooms "uC" = none ∧
    (handle_chat_message noFail emptyRoomSt userC "hello" "m3" 0).events =
      [⟨"uA", WireMsg.chat_message
        { message_id := "m3", user_id := "uC", username := "C",
          content := "hello", timestamp := 0, room_id := "" }, true⟩] ∧
    (handle_chat_message noFail emptyRoomSt userC "hello" "m3" 0).events ≠
      [] := by
  refine ⟨rfl, by decide, by decide⟩

/-- C10 (amended): when the sender has no entry in `user_rooms` (its
`dict.get` defaults the room id to `""`), an approved message is created
with room id `""`, the delivered-message counter is incremented and the
call returns `True`; and provided no room with the empty id exists in
the registry — the case the counterexample excludes — its broadcast is
the unknown-room no-op delivering to nobody. -/
theorem C10_unmapped_sender_message (sendFails : Nat → Bool)
    (st : WebSocketManager) (user : User) (content message_id : String)
    (timestamp : Nat)
    (hnr : dictGet st.user_rooms user.user_id = none)
    (hnoroom : dictGet st.room_users "" = none)
    (happ : moderate_message
      { message_id := message_id, user_id := user.user_id,
        username := user.username, content := content, timestamp := timestamp,
        room_id := "" } user = true) :
    handle_chat_message sendFails st user content message_id timestamp =
      ⟨{ st with metrics := { st.metrics with
           message_count := st.metrics.message_count + 1 } },
       [],
       [{ message_id := message_id, user_id := user.user_id,
          username := user.username, content := content,
          timestamp := timestamp, room_id := "" }],
       true⟩ := by
  unfold handle_chat_message
  rw [hnr]
  simp only [Option.getD_none]
  rw [if_pos happ]
  rw [broadcast_to_room_of_none sendFails st "" _ none hnoroom]

/-- Witness for C10: viewer C sends `"hello"` on the fresh manager. -/
theorem C10_unmapped_sender_message_witness :
    dictGet initWSM.user_rooms "uC" = none ∧
    dictGet initWSM.room_users "" = none ∧
    handle_chat_message noFail initWSM userC "hello" "m2" 7 =
      ⟨{ initWSM with metrics := { initWSM.metrics with
           message_count := initWSM.metrics.message_count + 1 } },
       [],
       [{ message_id := "m2", user_id := "uC", username := "C",
          content := "hello", timestamp := 7, room_id := "" }],
       true⟩ :=
  ⟨rfl, rfl,
   C10_unmapped_sender_message noFail initWSM userC "hello" "m2" 7 rfl rfl
     (by decide)⟩

/-! ### Equation lemmas for the cleanup branches -/

theorem roomCleanup_eq_of_none (st : WebSocketManager) (u : String)
    (h : dictGet st.user_rooms u = none) :
    roomCleanup st u = (st.room_users, st.active_rooms) := by
  unfold roomCleanup
  rw [h]

theorem roomCleanup_eq_of_skip (st : WebSocketManager) (u rid : String)
    (h : dictGet st.user_rooms u = some rid)
    (hc : ¬ (rid ≠ "" ∧ (dictGet st.room_users rid).isSome = true)) :
    roomCleanup st u = (st.room_users, st.active_rooms) := by
  unfold roomCleanup
  rw [h]
  dsimp only
  rw [if_neg hc]

theorem roomCleanup_eq_of_active (st : WebSocketManager) (u rid : String)
    (h : dictGet st.user_rooms u = some rid)
    (hc : rid ≠ "" ∧ (dictGet st.room_users rid).isSome = true) :
    roomCleanup st u =
      (dictModify st.room_users rid (fun ms => setDiscard ms u),
       if (dictGet st.active_rooms rid).isSome = true then
         dictModify st.active_rooms rid
           (fun r => { r with active_users := max 0 (r.active_users - 1) })
       else st.active_rooms) := by
  unfold roomCleanup
  rw [h]
  dsimp only
  rw [if_pos hc]

theorem unregister_eq (st : WebSocketManager) (u : String)
    (hg : (dictGet st.connections u).isSome = true) :
    unregister_connection st u =
      { st with room_users := (roomCleanup st u).1,
                active_rooms := (roomCleanup st u).2,
                connections := dictDel st.connections u,
                user_rooms := dictDel st.user_rooms u } := by
  unfold unregister_connection
  rw [if_pos hg]

/-! ### The registry invariant is preserved -/

/-- The fresh manager satisfies the registry invariant. -/
theorem inv_init : RegistryInv initWSM :=
  ⟨fun _ _ h => Option.noConfusion h,
   fun _ _ h => Option.noConfusion h,
   fun _ _ h => Option.noConfusion h⟩

/-- `unregister_connection` preserves the registry invariant. -/
theorem inv_unregister (st : WebSocketManager) (u : String)
    (h : RegistryInv st) : RegistryInv (unregister_connection st u) := by
  obtain ⟨hnd, hmap, hcnt⟩ := h
  by_cases hg : (dictGet st.connections u).isSome = true
  · rw [unregister_eq st u hg]
    cases hur : dictGet st.user_rooms u with
    | none =>
      rw [roomCleanup_eq_of_none st u hur]
      refine ⟨hnd, ?_, hcnt⟩
      intro v r hv
      have hvu : v ≠ u := by
        intro hvu
        subst hvu
        rw [dictGet_dictDel_self] at hv
        cases hv
      rw [dictGet_dictDel_ne _ hvu] at hv
      exact hmap v r hv
    | some rid =>
      by_cases hcond : rid ≠ "" ∧ (dictGet st.room_users rid).isSome = true
      · rw [roomCleanup_eq_of_active st u rid hur hcond]
        rcases Option.isSome_iff_exists.mp hcond.2 with ⟨ms0, hms0⟩
        rcases hcnt rid ms0 hms0 with ⟨cr0, hcr0, hlen0⟩
        have hu_in : u ∈ ms0 := by
          rcases hmap u rid hur with ⟨ms1, hms1, hu1⟩
          rw [hms0] at hms1
          injection hms1 with e
          subst e
          exact hu1
        have hnd0 := hnd rid ms0 hms0
        have hact : (dictGet st.active_rooms rid).isSome = true := by
          rw [hcr0]
          rfl
        rw [if_pos hact]
        refine ⟨?_, ?_, ?_⟩
        · intro r ms hr
          by_cases hrr : r = rid
          · subst hrr
            rw [dictGet_dictModify_self, hms0] at hr
            injection hr with e
            subst e
            exact setDiscard_nodup u hnd0
          · rw [dictGet_dictModify_ne _ _ hrr] at hr
            exact hnd r ms hr
        · intro v r hv
          have hvu : v ≠ u := by
            intro hvu
            subst hvu
            rw [dictGet_dictDel_self] at hv
            cases hv
          rw [dictGet_dictDel_ne _ hvu] at hv
          rcases hmap v r hv with ⟨ms1, hms1, hv1⟩
          by_cases hrr : r = rid
          · subst hrr
            rw [hms0] at hms1
            injection hms1 with e
            subst e
            refine ⟨setDiscard ms0 u, ?_, mem_setDiscard.mpr ⟨hv1, hvu⟩⟩
            rw [dictGet_dictModify_self, hms0]
            rfl
          · refine ⟨ms1, ?_, hv1⟩
            rw [dictGet_dictModify_ne _ _ hrr]
            exact hms1
        · intro r ms hr
          by_cases hrr : r = rid
          · subst hrr
            rw [dictGet_dictModify_self, hms0] at hr
            injection hr with e
            subst e
            refine ⟨{ cr0 with active_users := max 0 (cr0.active_users - 1) },
              ?_, ?_⟩
            · rw [dictGet_dictModify_self, hcr0]
              rfl
            · show max 0 (cr0.active_users - 1) = ((setDiscard ms0 u).length : Int)
              rw [hlen0, length_setDiscard_mem hnd0 hu_in]
              have hpos : 0 < ms0.length :=
                List.length_pos.mpr (List.ne_nil_of_mem hu_in)
              have h1 : ((ms0.length - 1 : Nat) : Int) = (ms0.length : Int) - 1 := by
                omega
              rw [h1]
              have h2 : (0 : Int) ≤ (ms0.length : Int) - 1 := by omega
              exact max_eq_right h2
          · rw [dictGet_dictModify_ne _ _ hrr] at hr
            rcases hcnt r ms hr with ⟨cr, hcr, hlen⟩
            refine ⟨cr, ?_, hlen⟩
            rw [dictGet_dictModify_ne _ _ hrr]
            exact hcr
      · rw [roomCleanup_eq_of_skip st u rid hur hcond]
        refine ⟨hnd, ?_, hcnt⟩
        intro v r hv
        have hvu : v ≠ u := by
          intro hvu
          subst hvu
          rw [dictGet_dictDel_self] at hv
          cases hv
        rw [dictGet_dictDel_ne _ hvu] at hv
        exact hmap v r hv
  · rw [unregister_noop st (Option.not_isSome_iff_eq_none.mp hg)]
    exact ⟨hnd, hmap, hcnt⟩

/-- The deferred-cleanup fold preserves the registry invariant. -/
theorem inv_foldl_unregister (l : List String) (st : WebSocketManager)
    (h : RegistryInv st) : RegistryInv (l.foldl unregister_connection st) := by
  induction l generalizing st with
  | nil => exact h
  | cons a l ih => exact ih _ (inv_unregister st a h)

/-- `broadcast_to_room` preserves the registry invariant. -/
theorem inv_broadcast (sendFails : Nat → Bool) (st : WebSocketManager)
    (room_id : String) (message : WireMsg) (excl : Option String)
    (h : RegistryInv st) :
    RegistryInv (broadcast_to_room sendFails st room_id message excl).st := by
  cases hm : dictGet st.room_users room_id with
  | none =>
    rw [broadcast_to_room_of_none sendFails st room_id message excl hm]
    exact h
  | some members =>
    rw [broadcast_to_room_of_some sendFails st room_id message excl members hm]
    exact inv_foldl_unregister _ st h

/-- The pre-broadcast registration updates preserve the registry
invariant when the registering id is fresh (as every `uuid4`-generated
id is): the room is created at count 0 if absent, the user is added to
the membership set, and the count is incremented in step. -/
theorem inv_registerPre (st : WebSocketManager) (ws : Nat) (user : User)
    (rid : String) (h : RegistryInv st) (hf : FreshFor st user.user_id) :
    RegistryInv (registerPre st ws user rid) := by
  obtain ⟨hnd, hmap, hcnt⟩ := h
  obtain ⟨hfc, hfu, hfm⟩ := hf
  unfold registerPre
  dsimp only
  by_cases hr : (dictGet st.room_users rid).isSome = true
  · rw [if_pos hr]
    dsimp only
    rcases Option.isSome_iff_exists.mp hr with ⟨ms0, hms0⟩
    rcases hcnt rid ms0 hms0 with ⟨cr0, hcr0, hlen0⟩
    have hnotin : user.user_id ∉ ms0 := hfm rid ms0 hms0
    refine ⟨?_, ?_, ?_⟩
    · intro r ms hmr
      by_cases hrr : r = rid
      · subst hrr
        rw [dictGet_dictModify_self, hms0] at hmr
        injection hmr with e
        subst e
        exact setAdd_nodup user.user_id (hnd _ ms0 hms0)
      · rw [dictGet_dictModify_ne _ _ hrr] at hmr
        exact hnd r ms hmr
    · intro v r hv
      by_cases hvu : v = user.user_id
      · subst hvu
        rw [dictGet_dictSet_self] at hv
        injection hv with e
        subst e
        refine ⟨setAdd ms0 user.user_id, ?_, mem_setAdd.mpr (Or.inr rfl)⟩
        rw [dictGet_dictModify_self, hms0]
        rfl
      · rw [dictGet_dictSet_ne _ _ hvu] at hv
        rcases hmap v r hv with ⟨ms1, hms1, hv1⟩
        by_cases hrr : r = rid
        · subst hrr
          rw [hms0] at hms1
          injection hms1 with e
          subst e
          refine ⟨setAdd ms0 user.user_id, ?_, mem_setAdd.mpr (Or.inl hv1)⟩
          rw [dictGet_dictModify_self, hms0]
          rfl
        · refine ⟨ms1, ?_, hv1⟩
          rw [dictGet_dictModify_ne _ _ hrr]
          exact hms1
    · intro r ms hmr
      by_cases hrr : r = rid
      · subst hrr
        rw [dictGet_dictModify_self, hms0] at hmr
        injection hmr with e
        subst e
        refine ⟨{ cr0 with active_users := cr0.active_users + 1 }, ?_, ?_⟩
        · rw [dictGet_dictModify_self, hcr0]
          rfl
        · show cr0.active_users + 1 = ((setAdd ms0 user.user_id).length : Int)
          rw [hlen0, length_setAdd_not_mem hnotin]
          omega
      · rw [dictGet_dictModify_ne _ _ hrr] at hmr
        rcases hcnt r ms hmr with ⟨cr, hcr, hlen⟩
        refine ⟨cr, ?_, hlen⟩
        rw [dictGet_dictModify_ne _ _ hrr]
        exact hcr
  · rw [if_neg hr]
    dsimp only
    have hms0 : dictGet st.room_users rid = none :=
      Option.not_isSome_iff_eq_none.mp hr
    refine ⟨?_, ?_, ?_⟩
    · intro r ms hmr
      by_cases hrr : r = rid
      · subst hrr
        rw [dictGet_dictModify_self, dictGet_dictSet_self] at hmr
        injection hmr with e
        subst e
        exact setAdd_nodup user.user_id List.nodup_nil
      · rw [dictGet_dictModify_ne _ _ hrr, dictGet_dictSet_ne _ _ hrr] at hmr
        exact hnd r ms hmr
    · intro v r hv
      by_cases hvu : v = user.user_id
      · subst hvu
        rw [dictGet_dictSet_self] at hv
        injection hv with e
        subst e
        refine ⟨setAdd [] user.user_id, ?_, mem_setAdd.mpr (Or.inr rfl)⟩
        rw [dictGet_dictModify_self, dictGet_dictSet_self]
        rfl
      · rw [dictGet_dictSet_ne _ _ hvu] at hv
        rcases hmap v r hv with ⟨ms1, hms1, hv1⟩
        by_cases hrr : r = rid
        · subst hrr
          rw [hms0] at hms1
          cases hms1
        · refine ⟨ms1, ?_, hv1⟩
          rw [dictGet_dictModify_ne _ _ hrr, dictGet_dictSet_ne _ _ hrr]
          exact hms1
    · intro r ms hmr
      by_cases hrr : r = rid
      · subst hrr
        rw [dictGet_dictModify_self, dictGet_dictSet_self] at hmr
        injection hmr with e
        subst e
        refine ⟨{ room_id := r, name := "Room " ++ r,
                  active_users := 0 + 1, is_active := true }, ?_, ?_⟩
        · rw [dictGet_dictModify_self, dictGet_dictSet_self]
          rfl
        · show (0 : Int) + 1 = ((setAdd ([] : List String) user.user_id).length : Int)
          rw [length_setAdd_not_mem (List.not_mem_nil user.user_id)]
          rfl
      · rw [dictGet_dictModify_ne _ _ hrr, dictGet_dictSet_ne _ _ hrr] at hmr
        rcases hcnt r ms hmr with ⟨cr, hcr, hlen⟩
        refine ⟨cr, ?_, hlen⟩
        rw [dictGet_dictModify_ne _ _ hrr, dictGet_dictSet_ne _ _ hrr]
        exact hcr

/-- `register_connection` preserves the registry invariant for a fresh
id (the broadcast's deferred cleanup preserves it too). -/
theorem inv_register (sendFails : Nat → Bool) (st : WebSocketManager)
    (ws : Nat) (user : User) (rid : String) (h : RegistryInv st)
    (hf : FreshFor st user.user_id) :
    RegistryInv (register_connection sendFails st ws user rid).1 :=
  inv_broadcast sendFails (registerPre st ws user rid) rid
    (WireMsg.user_joined user (roomCount (registerPre st ws user rid) rid))
    (some user.user_id) (inv_registerPre st ws user rid h hf)

/-- Every reachable state satisfies the registry invariant. -/
theorem inv_reaches (st : WebSocketManager) (h : Reaches st) :
    RegistryInv st := by
  induction h with
  | init => exact inv_init
  | reg st f ws user rid hr hf ih => exact inv_register f st ws user rid ih hf
  | unreg st uid hr ih => exact inv_unregister st uid ih

/-! ### Claim C7: live-member count equals membership cardinality -/

/-- C7: in every state reached from the fresh manager by completed
register/deregister operations — registrations carrying fresh
(`uuid4`-generated) user ids, as every `handle_client` registration
does — each room's live-member count equals the cardinality of that
room's membership set. -/
theorem C7_count_eq_cardinality (st : WebSocketManager) (h : Reaches st) :
    ∀ r ms, dictGet st.room_users r = some ms →
      ∃ cr, dictGet st.active_rooms r = some cr ∧
        cr.active_users = (ms.toFinset.card : Int) := by
  intro r ms hms
  obtain ⟨hnd, -, hcnt⟩ := inv_reaches st h
  rcases hcnt r ms hms with ⟨cr, hcr, hlen⟩
  refine ⟨cr, hcr, ?_⟩
  rw [hlen, List.toFinset_card_of_nodup (hnd r ms hms)]

/-- Witness for C7: the state after registering A into `R1` is reachable
(A's id is fresh in the empty manager), and `R1`'s count 1 equals the
cardinality of its membership set `{uA}`. -/
theorem C7_count_eq_cardinality_witness :
    FreshFor initWSM "uA" ∧
    ∃ cr, dictGet ((register_connection noFail initWSM 1 userA
        "R1").1).active_rooms "R1" = some cr ∧
      cr.active_users = ((["uA"] : List String).toFinset.card : Int) := by
  have hfresh : FreshFor initWSM "uA" :=
    ⟨rfl, rfl, fun r ms hm => Option.noConfusion hm⟩
  refine ⟨hfresh, ?_⟩
  exact C7_count_eq_cardinality _
    (Reaches.reg initWSM noFail 1 userA "R1" Reaches.init hfresh)
    "R1" ["uA"] (by decide)
